import Mathlib

/-!
Shallow embedding of the regridding worker functions of `cf/regrid/utils.py`
(the `cf-python` regridding core), together with proofs of the specification
claims about them.

Numeric coordinate and mass values are modelled by `ℚ` (the code manipulates
machine floats only through exact comparisons, copies, sums, products and a
single guarded division, so exact rationals capture the expressible content).
Dictionaries of per-axis arrays are modelled by lists of lists, masked arrays
by lists paired with mask booleans, and raised exceptions by `Except`/`Bool`
flags that record whether the corresponding `raise` statement fires.
-/

/-- Embeds `regridding_methods()` (utils.py lines 30-39): the catalogue of
valid regridding method strings. -/
def regridding_methods : List String :=
  ["linear",
   "bilinear",
   "conservative",
   "conservative_1st",
   "conservative_2nd",
   "nearest_dtos",
   "nearest_stod",
   "patch"]

/-- Embeds `regridding_is_conservative(method)` (utils.py lines 22-27). -/
def regridding_is_conservative (method : String) : Bool :=
  ["conservative", "conservative_1st", "conservative_2nd"].contains method

/-- Embeds membership in `conservative_regridding_methods`, the constant the
old implementation imports from `regridoperator.py` (not under `src/`); the
in-source `regridding_is_conservative` (utils.py lines 22-27) fixes the same
three conservative method strings. -/
def conservative_regridding_methods : List String :=
  ["conservative", "conservative_1st", "conservative_2nd"]

/-- Embeds `regrid_check_method(method)` (utils.py lines 536-562 and the
identical old copy at lines 1945-1971): returns `true` iff the function
raises `ValueError`.  The `bilinear` branch only logs a deprecation notice
and raises nothing. -/
def regrid_check_method_raises (method : String) : Bool :=
  !(regridding_methods.contains method)

/-- Embeds `regrid_check_use_src_mask(use_src_mask, method)` (utils.py lines
565-588 and the identical old copy at lines 1974-1997): returns `true` iff
the function raises `ValueError`. -/
def regrid_check_use_src_mask_raises (use_src_mask : Bool) (method : String) : Bool :=
  !use_src_mask && !(method == "nearest_stod")

/-- Embeds the size-1 dimension check of `regrid_get_latlon_field`
(utils.py lines 335-345, and the identical old copy at lines 1711-1721):
returns `true` iff the `ValueError` naming the role is raised, i.e. iff
`name == "source" and method in ("linear", "bilinear", "patch") and
(x_size == 1 or y_size == 1)`. -/
def size1_dimension_raises (name method : String) (x_size y_size : Nat) : Bool :=
  name == "source" && ["linear", "bilinear", "patch"].contains method
    && (x_size == 1 || y_size == 1)

/-- Embeds the numpy modulo applied to the edge differences in
`contiguous_bounds` (utils.py lines 1354-1355): `diff % period` with numpy
semantics `d - p * floor(d / p)`, applied only when `cyclic` is true and a
period is given.  All call sites pass the positive period `360`. -/
def wrapDiff (cyclic : Bool) (period : Option ℚ) (d : ℚ) : ℚ :=
  match cyclic, period with
  | true, some p => d - p * (Rat.floor (d / p) : ℚ)
  | _, _ => d

/-- Embeds the 1-d case of the per-array loop body of `contiguous_bounds`
(utils.py lines 1349-1358): the array of cell bounds (rows of shape `(n, 2)`)
passes iff every difference `b[i+1, 0] - b[i, 1]`, reduced modulo the period
when cyclic, is zero (`diff.any()` is false). -/
def contiguous1D (cyclic : Bool) (period : Option ℚ) : List (ℚ × ℚ) → Bool
  | c1 :: c2 :: rest =>
      (wrapDiff cyclic period (c2.1 - c1.2) == 0)
        && contiguous1D cyclic period (c2 :: rest)
  | _ => true

/-- Embeds `contiguous_bounds(bounds, cyclic, period)` (utils.py lines
1344-1399) restricted to dicts of 1-d bounds arrays: an empty dict returns
`True`, otherwise every value of the dict must pass the per-array adjacency
check. -/
def contiguous_bounds (bounds : List (List (ℚ × ℚ))) (cyclic : Bool)
    (period : Option ℚ) : Bool :=
  bounds.all (fun b => contiguous1D cyclic period b)

/-- Embeds the cyclicity derivation of `create_spherical_ESMF_grid`
(utils.py lines 1189-1200; the old `create_Grid` performs the same test at
lines 2933-2937 and 2964-2974): when `cyclic` is `None` it becomes `True`
iff 1-d longitude bounds are available and
`abs(lon_bounds.item(-1) - lon_bounds.item(0)) == 360` — that is, the very
first lower bound and the very last upper bound of the flattened `(n, 2)`
array differ by exactly the period; with no usable longitude bounds it
becomes `False`.  When `cyclic` is already set it is kept unchanged. -/
def set_cyclic (cyclic : Option Bool) (lon_bounds : Option (List (ℚ × ℚ)))
    (coords_1D : Bool) : Bool :=
  match cyclic with
  | some c => c
  | none =>
      match lon_bounds, coords_1D with
      | some lb, true => |(lb.getLast!).2 - lb.headI.1| == 360
      | _, _ => false

/-- Embeds the 1-d corner stitching of `create_Grid` (utils.py lines
3004-3018; `create_spherical_ESMF_grid` lines 1215-1227 and
`create_Cartesian_ESMF_grid` lines 1072-1083 build the same arrays): when
the axis is cyclic only the `n` lower bounds populate the corner array
(`x_bounds[:, 0]`); otherwise an `(n+1)`-entry array is built from the `n`
lower bounds followed by the last upper bound (`tmp[:n] = bounds[:, 0];
tmp[n] = bounds[-1, 1]`). -/
def stitch_corners_1d (b : List (ℚ × ℚ)) (cyclic : Bool) : List ℚ :=
  if cyclic then b.map Prod.fst
  else b.map Prod.fst ++ [(b.getLast!).2]

/-- Embeds `frac[frac == 0.0] = 1.0` (utils.py line 2256): the divisor used
for each destination cell, with zero fractions replaced by one. -/
def safeFrac (frac : ℚ) : ℚ :=
  if frac == 0 then 1 else frac

/-- Embeds `regrid_get_regridded_data(f, method, fracfield, dstfield,
dstfracfield)` (utils.py lines 2222-2267).  Each output entry is the pair
of the cell's numeric value and its mask flag (`true` = missing) of the
returned `numpy.ma.MaskedArray`: for a conservative method (and
`fracfield=False`) the value is `dstfield.data / frac` with the guarded
divisor, and the cell is masked iff `dstfield.data` equals the netCDF fill
value of the source field; otherwise the data is returned with the same
fill-value mask and no division. -/
def regrid_get_regridded_data (fill : ℚ) (method : String) (fracfield : Bool)
    (dstData dstFrac : List ℚ) : List (ℚ × Bool) :=
  if conservative_regridding_methods.contains method then
    if fracfield then dstFrac.map (fun fr => (fr, false))
    else List.zipWith (fun d fr => (d / safeFrac fr, d == fill)) dstData dstFrac
  else dstData.map (fun d => (d, d == fill))

/-- Embeds `convert_mask_to_ESMF(mask)` (utils.py lines 1320-1341):
`np.invert(mask).astype('int32')`, sending `True` (excluded) to `0` and
`False` to `1`. -/
def convert_mask_to_ESMF (m : List Bool) : List Int :=
  m.map (fun b => if b then 0 else 1)

/-- Models the `mask` argument of `add_mask` (utils.py lines 1282-1317):
either `None`, a plain non-boolean non-masked array (whose values are
irrelevant to the function), a boolean array, or a non-boolean
`numpy.ma.MaskedArray` carrying its underlying boolean mask
(`np.ma.is_masked` holds iff that mask has a `True` element). -/
inductive MaskInput where
  | noMask : MaskInput
  | plainArray (data : List ℚ) : MaskInput
  | boolArray (m : List Bool) : MaskInput
  | maskedArray (m : List Bool) : MaskInput

/-- The boolean mask the claim calls the "(underlying) mask" of the
argument: the array itself for a boolean array, the `.mask` attribute for a
masked array, nothing otherwise. -/
def underlying_mask : MaskInput → Option (List Bool)
  | .boolArray m => some m
  | .maskedArray m => some m
  | _ => none

/-- Embeds `add_mask(grid, mask)` (utils.py lines 1282-1317), returning the
mask item attached to the grid, if any: for a boolean array `m = mask`, for
a masked array (`np.ma.is_masked`) `m = mask.mask`, otherwise `m` stays
`None`; the item `convert_mask_to_ESMF(m)` is attached iff `m` is not
`None` and `np.any(m)` holds. -/
def add_mask : MaskInput → Option (List Int)
  | .noMask => none
  | .plainArray _ => none
  | .boolArray m => if m.any id then some (convert_mask_to_ESMF m) else none
  | .maskedArray m => if m.any id then some (convert_mask_to_ESMF m) else none

/-- Embeds the rank computation of `regrid_get_axis_indices` (utils.py
lines 495-499): `tmp = argsort(axis_indices)` (numpy stable sort) followed
by `order[tmp] = arange(n)`, so `order[i]` is the number of positions `j`
sorted strictly before position `i`. -/
def rank_order (a : List ℕ) : List ℕ :=
  (List.range a.length).map (fun i =>
    ((List.range a.length).filter (fun j =>
      decide (a.getD j 0 < a.getD i 0)
        || (decide (a.getD j 0 = a.getD i 0) && decide (j < i)))).length)

/-- Embeds the new `regrid_get_axis_indices(f, axis_keys)` (utils.py lines
450-501), the field modelled by its data-axis key list.  The insertion loop
body for a key missing from the data axes executes
`f.insert_dimension(axis_key, position=0, inplace=True)`, but the name
`axis_key` is undefined in that scope (the loop variable is `key`), so the
first missing key raises `NameError` — modelled as the error result.  When
every key is present the function returns each key's position in the data
axes together with the rank order of those positions. -/
def regrid_get_axis_indices (data_axes axis_keys : List String) :
    Except String (List ℕ × List ℕ) :=
  if axis_keys.all (fun key => data_axes.contains key) then
    let axis_indices := axis_keys.map (fun key => data_axes.indexOf key)
    Except.ok (axis_indices, rank_order axis_indices)
  else
    Except.error "NameError: name axis_key is not defined"

/-- Embeds `regrid_compute_mass_grid(valuefield, areafield, dofrac,
fracfield, uninitval)` (utils.py lines 1456-1498): the sum of
`area * value` (times `frac` when `dofrac`) over the cells whose value
differs from `uninitval`. -/
def regrid_compute_mass_grid (values areas : List ℚ) (dofrac : Bool)
    (fracs : List ℚ) (uninitval : ℚ) : ℚ :=
  if dofrac then
    ((((values.zip areas).zip fracs).filter
        (fun t => !(t.1.1 == uninitval))).map
        (fun t => t.1.2 * t.1.1 * t.2)).sum
  else
    (((values.zip areas).filter (fun t => !(t.1 == uninitval))).map
        (fun t => t.2 * t.1)).sum

/-- Embeds `regrid_compute_field_mass(f, _compute_field_mass, k, srcgrid,
srcfield, srcfracfield, dstgrid, dstfield)` (utils.py lines 2147-2219).
The caller-supplied dictionary is modelled as an association list updated
at the section key `k` (`List.lookup` finds the newest entry first, like a
dict overwrite); the destination field data is the second component of the
state and is only read, never written.  The source mass uses
`dofrac=True` with the source fraction field, the destination mass
`dofrac=False`; both use the field's netCDF fill value as `uninitval`.
The function is total: no exception path inspects the mass values, so a
mass mismatch never raises (the only `raise` fires when the dictionary
argument is not a dict, which the type here fixes). -/
def regrid_compute_field_mass (store : List (ℕ × (ℚ × ℚ))) (k : ℕ)
    (src_values src_areas src_fracs dst_values dst_areas : List ℚ)
    (fill_value : ℚ) : List (ℕ × (ℚ × ℚ)) × List ℚ :=
  let srcmass :=
    regrid_compute_mass_grid src_values src_areas true src_fracs fill_value
  let dstmass :=
    regrid_compute_mass_grid dst_values dst_areas false [] fill_value
  ((k, (srcmass, dstmass)) :: store, dst_values)

/-- C5: `regrid_check_method` raises a `ValueError` iff the method is not one
of the eight catalogue strings, and every catalogue string (including the
deprecated `bilinear`, which is only logged about) is accepted without
exception. -/
theorem regrid_check_method_spec :
    (∀ method : String,
      regrid_check_method_raises method = true ↔
        method ∉ (["linear", "bilinear", "conservative", "conservative_1st",
                   "conservative_2nd", "nearest_dtos", "nearest_stod",
                   "patch"] : List String))
    ∧ regrid_check_method_raises "bilinear" = false := by
  constructor
  · intro method
    simp [regrid_check_method_raises, regridding_methods]
  · rfl

/-- C4: `regrid_check_use_src_mask` raises a `ValueError` iff `use_src_mask`
is `False` and the method is not `nearest_stod`; every other combination
returns without raising. -/
theorem regrid_check_use_src_mask_spec :
    ∀ (use_src_mask : Bool) (method : String),
      regrid_check_use_src_mask_raises use_src_mask method = true ↔
        (use_src_mask = false ∧ method ≠ "nearest_stod") := by
  intro use_src_mask method
  simp [regrid_check_use_src_mask_raises]

/-- C6 counterexample: `nearest_stod` is a non-conservative method, yet a
source grid with a size-1 X dimension does not raise under it, refuting the
claim that every non-conservative method raises for a size-1 source
dimension. -/
theorem size1_dimension_counterexample :
    regridding_is_conservative "nearest_stod" = false
    ∧ size1_dimension_raises "source" "nearest_stod" 1 73 = false := by
  constructor <;> rfl

/-- C6 (amended): the size-1 dimension check raises iff the role is
`source`, the method is one of `linear`, `bilinear`, `patch`, and the X or Y
coordinate size equals 1; in particular it never raises for the destination
grid nor for conservative methods. -/
theorem size1_dimension_raises_spec :
    ∀ (name method : String) (x_size y_size : Nat),
      size1_dimension_raises name method x_size y_size = true ↔
        (name = "source"
          ∧ method ∈ (["linear", "bilinear", "patch"] : List String)
          ∧ (x_size = 1 ∨ y_size = 1)) := by
  intro name method x_size y_size
  simp [size1_dimension_raises, and_assoc]

theorem wrapDiff_zero (cyclic : Bool) (period : Option ℚ) :
    wrapDiff cyclic period 0 = 0 := by
  have h0 : Rat.floor 0 = 0 := rfl
  cases cyclic <;> cases period <;> simp [wrapDiff, zero_div, h0]

theorem contiguous1D_iff (cyclic : Bool) (period : Option ℚ) :
    ∀ b : List (ℚ × ℚ),
      contiguous1D cyclic period b = true ↔
        ∀ (i : ℕ) (h : i + 1 < b.length),
          wrapDiff cyclic period
              ((b.get ⟨i + 1, h⟩).1 - (b.get ⟨i, Nat.lt_of_succ_lt h⟩).2) = 0
  | [] => by
      constructor
      · intro _ i h
        simp only [List.length_nil] at h
        omega
      · intro _
        rfl
  | [c] => by
      constructor
      · intro _ i h
        simp only [List.length_singleton] at h
        omega
      · intro _
        rfl
  | c1 :: c2 :: rest => by
      have ih := contiguous1D_iff cyclic period (c2 :: rest)
      simp only [contiguous1D, Bool.and_eq_true, beq_iff_eq] at *
      constructor
      · rintro ⟨h0, hrest⟩ i h
        match i with
        | 0 => exact h0
        | Nat.succ j =>
            exact (ih.mp hrest) j (by simpa using h)
      · intro hall
        refine ⟨hall 0 (by simp), ih.mpr ?_⟩
        intro j h
        exact hall (j + 1) (by simpa using h)

/-- C1: for a non-empty dict of 1-d `(n, 2)` bounds arrays,
`contiguous_bounds` returns `True` iff for every adjacent cell pair of every
array the lower bound of cell `i+1` coincides with the upper bound of cell
`i` (after reduction by the period when `cyclic` is true and a period is
given); consequently an exactly-touching monotone bound sequence passes the
check, and any adjacent pair left with a gap or an overlap makes it return
`False`. -/
theorem contiguous_bounds_spec
    (bounds : List (List (ℚ × ℚ))) (cyclic : Bool) (period : Option ℚ)
    (hne : bounds ≠ []) :
    (contiguous_bounds bounds cyclic period = true ↔
      ∀ b ∈ bounds, ∀ (i : ℕ) (h : i + 1 < b.length),
        wrapDiff cyclic period
            ((b.get ⟨i + 1, h⟩).1 - (b.get ⟨i, Nat.lt_of_succ_lt h⟩).2) = 0)
    ∧ ((∀ b ∈ bounds, ∀ (i : ℕ) (h : i + 1 < b.length),
          (b.get ⟨i, Nat.lt_of_succ_lt h⟩).2 = (b.get ⟨i + 1, h⟩).1) →
        contiguous_bounds bounds cyclic period = true)
    ∧ (∀ b ∈ bounds, ∀ (i : ℕ) (h : i + 1 < b.length),
        wrapDiff cyclic period
            ((b.get ⟨i + 1, h⟩).1 - (b.get ⟨i, Nat.lt_of_succ_lt h⟩).2) ≠ 0 →
        contiguous_bounds bounds cyclic period = false) := by
  clear hne
  have hmain : contiguous_bounds bounds cyclic period = true ↔
      ∀ b ∈ bounds, ∀ (i : ℕ) (h : i + 1 < b.length),
        wrapDiff cyclic period
            ((b.get ⟨i + 1, h⟩).1 - (b.get ⟨i, Nat.lt_of_succ_lt h⟩).2) = 0 := by
    unfold contiguous_bounds
    rw [List.all_eq_true]
    constructor
    · intro hall b hb
      exact (contiguous1D_iff cyclic period b).mp (hall b hb)
    · intro hall b hb
      exact (contiguous1D_iff cyclic period b).mpr (hall b hb)
  refine ⟨hmain, ?_, ?_⟩
  · intro htouch
    refine hmain.mpr ?_
    intro b hb i h
    rw [← htouch b hb i h]
    simpa using wrapDiff_zero cyclic period
  · intro b hb i h hbad
    rcases hb' : contiguous_bounds bounds cyclic period with _ | _
    · rfl
    · exact absurd (hmain.mp hb' b hb i h) hbad

unseal Rat.sub in
theorem contiguous_bounds_spec_witness :
    contiguous_bounds [[((0 : ℚ), 1), (1, 2), (2, 3)]] false none = true
    ∧ contiguous_bounds [[((0 : ℚ), 1), (2, 3)]] false none = false := by
  constructor
  · refine (contiguous_bounds_spec _ false none (by decide)).2.1 ?_
    intro b hb i h
    simp only [List.mem_singleton] at hb
    subst hb
    simp only [List.length_cons, List.length_nil] at h
    match i, h with
    | 0, _ => rfl
    | 1, _ => rfl
  · exact (contiguous_bounds_spec _ false none (by decide)).2.2
      [((0 : ℚ), 1), (2, 3)] (by simp) 0 (by decide) (by decide)

unseal Rat.sub in
/-- C2: with the cyclic flag undetermined and 1-d longitude bounds
available, cyclicity is derived by testing whether the first and last
longitude bound differ by exactly 360 degrees: bounds spanning
`[-180, 180]` yield `cyclic = true`, a regional span such as `[-10, 10]`
yields `cyclic = false`; without longitude bounds (or with 2-d
coordinates) `cyclic` is set to `false`. -/
theorem set_cyclic_spec :
    (∀ lb : List (ℚ × ℚ), lb ≠ [] →
       (set_cyclic none (some lb) true = true ↔
         |(lb.getLast!).2 - lb.headI.1| = 360))
    ∧ set_cyclic none none true = false
    ∧ (∀ lb, set_cyclic none (some lb) false = false)
    ∧ set_cyclic none (some [((-180 : ℚ), 0), (0, 180)]) true = true
    ∧ set_cyclic none (some [((-10 : ℚ), 0), (0, 10)]) true = false := by
  refine ⟨?_, rfl, ?_, by decide, by decide⟩
  · intro lb _
    simp [set_cyclic]
  · intro lb
    rfl

unseal Rat.sub in
theorem set_cyclic_spec_witness :
    set_cyclic none (some [((-180 : ℚ), 0), (0, 180)]) true = true :=
  (set_cyclic_spec.1 [((-180 : ℚ), 0), (0, 180)] (by decide)).mpr (by decide)

/-- C7: stitching per-cell 2-vertex bounds of an axis of `n` cells produces,
for a non-cyclic axis, a corner array of `n + 1` entries whose entry `i`
(for `i < n`) is cell `i`'s lower bound and whose entry `n` is the last
cell's upper bound; for a cyclic longitude axis only the `n` lower bounds
are used, sharing the wrap-around corner instead of duplicating it. -/
theorem stitch_corners_1d_spec (b : List (ℚ × ℚ)) (hne : b ≠ []) :
    ((stitch_corners_1d b false).length = b.length + 1
      ∧ (∀ (i : ℕ) (h : i < b.length),
          (stitch_corners_1d b false)[i]? = some (b.get ⟨i, h⟩).1)
      ∧ (stitch_corners_1d b false)[b.length]? = some (b.getLast hne).2)
    ∧ stitch_corners_1d b true = b.map Prod.fst := by
  have hlast : b.getLast! = b.getLast hne :=
    List.getLast!_of_getLast? (List.getLast?_eq_getLast b hne)
  refine ⟨⟨?_, ?_, ?_⟩, ?_⟩
  · simp [stitch_corners_1d]
  · intro i h
    rw [stitch_corners_1d, if_neg (by simp)]
    rw [List.getElem?_append_left (by simpa using h)]
    simp [List.getElem?_eq_getElem (by simpa using h), List.get_eq_getElem]
  · rw [stitch_corners_1d, if_neg (by simp)]
    rw [List.getElem?_append_right (by simp), hlast]
    simp
  · simp [stitch_corners_1d]

theorem stitch_corners_1d_spec_witness :
    stitch_corners_1d [((0 : ℚ), 1), (1, 2)] true
      = List.map Prod.fst [((0 : ℚ), 1), (1, 2)] :=
  (stitch_corners_1d_spec [((0 : ℚ), 1), (1, 2)] (by decide)).2

/-- C3: for a conservative method, extracting the regridded data never
divides by zero — the per-cell divisor `safeFrac` is never zero because a
zero destination fraction is replaced by one before the division — and
under the context invariant that zero-fraction cells still hold the fill
value that `regrid_fill_fields` (utils.py line 2144) initialised
`dstfield.data` with, every zero-fraction destination cell comes out fully
masked (carrying the undivided fill value), while every other destination
cell equals the destination field data divided by the destination
fraction. -/
theorem regridded_data_conservative_spec
    (fill : ℚ) (method : String) (dstData dstFrac : List ℚ)
    (hcons : conservative_regridding_methods.contains method = true)
    (hfill : ∀ i : ℕ, dstFrac[i]? = some 0 → dstData[i]? = some fill) :
    (∀ fr : ℚ, safeFrac fr ≠ 0)
    ∧ (∀ i : ℕ, dstFrac[i]? = some 0 →
        (regrid_get_regridded_data fill method false dstData dstFrac)[i]?
          = some (fill, true))
    ∧ (∀ (i : ℕ) (d fr : ℚ), dstData[i]? = some d → dstFrac[i]? = some fr →
        fr ≠ 0 →
        (regrid_get_regridded_data fill method false dstData dstFrac)[i]?
          = some (d / fr, d == fill)) := by
  refine ⟨?_, ?_, ?_⟩
  · intro fr
    by_cases h : fr = 0
    · simp [safeFrac, h]
    · simp [safeFrac, h]
  · intro i h0
    have hd := hfill i h0
    rw [regrid_get_regridded_data, if_pos hcons, if_neg (by simp)]
    rw [List.getElem?_zipWith, hd, h0]
    have hsf : safeFrac 0 = 1 := by simp [safeFrac]
    simp [hsf]
  · intro i d fr hd hf hfr
    rw [regrid_get_regridded_data, if_pos hcons, if_neg (by simp)]
    rw [List.getElem?_zipWith, hd, hf]
    have hsf : safeFrac fr = fr := by simp [safeFrac, hfr]
    simp [hsf]

unseal Rat.mul Rat.inv in
theorem regridded_data_conservative_spec_witness :
    (regrid_get_regridded_data 99 "conservative" false [99, 4] [0, 2])[0]?
      = some (99, true) :=
  (regridded_data_conservative_spec 99 "conservative" [99, 4] [0, 2]
      (by decide)
      (fun i h => by
        match i with
        | 0 => rfl
        | 1 => exact absurd h (by decide)
        | n + 2 => exact absurd h (by simp))).2.1 0 (by decide)

/-- C10: `add_mask` attaches a mask item to the grid iff the argument is a
boolean array, or a masked array, whose (underlying) mask contains at least
one `True` element; the attached item is an integer array equal to `0`
exactly where the mask is `True` and `1` elsewhere; for `None`, for an
array that is neither boolean nor masked, or for a mask with no `True`
element, nothing is attached. -/
theorem add_mask_spec (input : MaskInput) :
    ((add_mask input).isSome = true ↔
      ∃ m, underlying_mask input = some m ∧ m.any id = true)
    ∧ (∀ item, add_mask input = some item →
        ∃ m, underlying_mask input = some m ∧ item.length = m.length
          ∧ ∀ (i : ℕ) (b : Bool), m[i]? = some b →
              item[i]? = some (if b then (0 : ℤ) else 1))
    ∧ (underlying_mask input = none → add_mask input = none) := by
  have hitem : ∀ m : List Bool, (convert_mask_to_ESMF m).length = m.length
      ∧ ∀ (i : ℕ) (b : Bool), m[i]? = some b →
          (convert_mask_to_ESMF m)[i]? = some (if b then (0 : ℤ) else 1) := by
    intro m
    refine ⟨by simp [convert_mask_to_ESMF], ?_⟩
    intro i b hb
    simp [convert_mask_to_ESMF, List.getElem?_map, hb]
  rcases input with _ | data | m | m
  · exact ⟨by simp [add_mask, underlying_mask], by simp [add_mask],
      fun _ => rfl⟩
  · exact ⟨by simp [add_mask, underlying_mask], by simp [add_mask],
      fun _ => rfl⟩
  · by_cases hany : m.any id = true
    · refine ⟨by simp [add_mask, underlying_mask, hany]; simpa using hany, ?_, by simp [underlying_mask]⟩
      intro item hit
      rw [add_mask, if_pos hany] at hit
      exact ⟨m, rfl, by rw [← Option.some_inj.mp hit]; exact (hitem m).1,
        by rw [← Option.some_inj.mp hit]; exact (hitem m).2⟩
    · refine ⟨by simp [add_mask, underlying_mask, hany]; simpa using hany, ?_, by simp [underlying_mask]⟩
      intro item hit
      rw [add_mask, if_neg hany] at hit
      exact absurd hit (by simp)
  · by_cases hany : m.any id = true
    · refine ⟨by simp [add_mask, underlying_mask, hany]; simpa using hany, ?_, by simp [underlying_mask]⟩
      intro item hit
      rw [add_mask, if_pos hany] at hit
      exact ⟨m, rfl, by rw [← Option.some_inj.mp hit]; exact (hitem m).1,
        by rw [← Option.some_inj.mp hit]; exact (hitem m).2⟩
    · refine ⟨by simp [add_mask, underlying_mask, hany]; simpa using hany, ?_, by simp [underlying_mask]⟩
      intro item hit
      rw [add_mask, if_neg hany] at hit
      exact absurd hit (by simp)

theorem add_mask_spec_witness :
    (add_mask (MaskInput.boolArray [true, false])).isSome = true
    ∧ add_mask MaskInput.noMask = none :=
  ⟨(add_mask_spec (MaskInput.boolArray [true, false])).1.mpr
      ⟨[true, false], rfl, rfl⟩,
   (add_mask_spec MaskInput.noMask).2.2 rfl⟩

/-- C8: evaluation of `regrid_get_axis_indices` at a failing and at a
working input.  A regrid axis key absent from the field's data axes makes
the insertion branch raise `NameError` (the code references the undefined
name `axis_key`), instead of inserting a size-1 dimension as documented;
when every key is present, the returned indices are the key positions and
the returned order is their rank permutation, as in the claim's example
where axis indices `[2, 0]` give order `[1, 0]`. -/
theorem regrid_get_axis_indices_eval :
    regrid_get_axis_indices ["dim0"] ["dim1"]
      = Except.error "NameError: name axis_key is not defined"
    ∧ regrid_get_axis_indices ["lon", "time", "lat"] ["lat", "lon"]
      = Except.ok ([2, 0], [1, 0]) := by
  constructor <;> rfl

theorem mass_grid_frac_eq :
    ∀ (values areas fracs : List ℚ) (fill : ℚ),
      areas.length = values.length → fracs.length = values.length →
      regrid_compute_mass_grid values areas true fracs fill =
        ((List.range values.length).map (fun i =>
          if values.getD i 0 = fill then 0
          else areas.getD i 0 * values.getD i 0 * fracs.getD i 0)).sum
  | [], _, _, fill, _, _ => by
      simp [regrid_compute_mass_grid]
  | _ :: _, [], _, _, h1, _ => by
      simp at h1
  | _ :: _, _ :: _, [], _, _, h2 => by
      simp at h2
  | v :: vt, a :: at', f :: ft, fill, h1, h2 => by
      have ih := mass_grid_frac_eq vt at' ft fill
        (by simpa using h1) (by simpa using h2)
      simp only [regrid_compute_mass_grid, if_true] at ih ⊢
      simp only [List.zip_cons_cons, List.filter_cons, List.length_cons,
        List.range_succ_eq_map, List.map_cons, List.map_map, List.sum_cons,
        Function.comp_def, List.getD_cons_zero, List.getD_cons_succ]
      by_cases hv : v = fill
      · simp [hv, ih]
      · simp [hv, ih]

theorem mass_grid_nofrac_eq :
    ∀ (values areas : List ℚ) (fill : ℚ),
      areas.length = values.length →
      regrid_compute_mass_grid values areas false [] fill =
        ((List.range values.length).map (fun i =>
          if values.getD i 0 = fill then 0
          else areas.getD i 0 * values.getD i 0)).sum
  | [], _, fill, _ => by
      simp [regrid_compute_mass_grid]
  | _ :: _, [], _, h1 => by
      simp at h1
  | v :: vt, a :: at', fill, h1 => by
      have ih := mass_grid_nofrac_eq vt at' fill (by simpa using h1)
      simp only [regrid_compute_mass_grid, Bool.false_eq_true, if_false] at ih ⊢
      simp only [List.zip_cons_cons, List.filter_cons, List.length_cons,
        List.range_succ_eq_map, List.map_cons, List.map_map, List.sum_cons,
        Function.comp_def, List.getD_cons_zero, List.getD_cons_succ]
      by_cases hv : v = fill
      · simp [hv, ih]
      · simp [hv, ih]

/-- C9: the per-section mass diagnostic stores under the section key the
pair of the source mass (the sum of `area * value * fraction` over the
cells whose value is not the fill value) and the destination mass (the sum
of `area * value` over non-fill cells); the theorem holds for arbitrary
mass values — nothing compares them, so a mismatch never raises — and the
destination field data comes back unchanged, so the diagnostic never
alters the regridded output. -/
theorem regrid_compute_field_mass_spec
    (store : List (ℕ × (ℚ × ℚ))) (k : ℕ)
    (src_values src_areas src_fracs dst_values dst_areas : List ℚ)
    (fill : ℚ)
    (h1 : src_areas.length = src_values.length)
    (h2 : src_fracs.length = src_values.length)
    (h3 : dst_areas.length = dst_values.length) :
    ((regrid_compute_field_mass store k src_values src_areas src_fracs
        dst_values dst_areas fill).1.lookup k
      = some
          (((List.range src_values.length).map (fun i =>
              if src_values.getD i 0 = fill then 0
              else src_areas.getD i 0 * src_values.getD i 0
                * src_fracs.getD i 0)).sum,
           ((List.range dst_values.length).map (fun i =>
              if dst_values.getD i 0 = fill then 0
              else dst_areas.getD i 0 * dst_values.getD i 0)).sum))
    ∧ (regrid_compute_field_mass store k src_values src_areas src_fracs
        dst_values dst_areas fill).2 = dst_values := by
  refine ⟨?_, rfl⟩
  show List.lookup k ((k, _) :: store) = _
  rw [List.lookup_cons_self]
  rw [mass_grid_frac_eq src_values src_areas src_fracs fill h1 h2,
    mass_grid_nofrac_eq dst_values dst_areas fill h3]

theorem regrid_compute_field_mass_spec_witness :
    (regrid_compute_field_mass [] 7 [1, 2] [3, 4] [1, 1] [5] [2] 99).2
      = [5] :=
  (regrid_compute_field_mass_spec [] 7 [1, 2] [3, 4] [1, 1] [5] [2] 99
    rfl rfl rfl).2
